import Mathlib

/-!
Verification of the core of `app.py` (AI process-documentation generator).

Python strings are embedded as `List Char` (`PyStr`).  Python `float`
arithmetic is embedded as `ℚ` (all values reached by the claims are exact
decimals, so no rounding behaviour is relevant).  A Python function that can
return `None` is embedded as an `Option`-valued function.

Embedded source functions (names kept from `app.py`):
* `timestamp_to_seconds`  (app.py lines 276-287)
* `seconds_to_timestamp`  (app.py lines 289-293)
* `extract_all_frames`    (app.py lines 320-345), with the cv2 frame decoder
  abstracted as an oracle argument
* `add_paragraph_with_screenshots` (lines 457-468), `add_screenshot`
  (lines 470-485), `create_word_document` (lines 487-546), with the
  python-docx `Document` embedded as the ordered list of block nodes the
  code appends to it
* the "Apply Changes" commit path of `main` (lines 1100-1110), with
  Python's `sorted` embedded as a stable insertion sort and the `TypeError`
  raised when a sort key is `None` made explicit.
-/

namespace ProcDoc

abbrev PyStr := List Char

/-- Python `str.split(sep)` for a single-character separator. -/
def splitOnChar (sep : Char) : PyStr → List PyStr
  | [] => [[]]
  | c :: cs =>
    let r := splitOnChar sep cs
    if c = sep then [] :: r
    else
      match r with
      | [] => [[c]]
      | p :: ps => (c :: p) :: ps

/-- The whitespace characters stripped by Python `str.strip()`
(ASCII fragment; no claim involves exotic unicode whitespace). -/
def isPySpace (c : Char) : Bool :=
  c = ' ' || c = '\t' || c = '\n' || c = '\r' || c = '\x0b' || c = '\x0c'

/-- Python `str.strip()`. -/
def pyStrip (s : PyStr) : PyStr :=
  ((s.dropWhile isPySpace).reverse.dropWhile isPySpace).reverse

/-- Value of a string of decimal digit characters (most significant first). -/
def digitsVal (cs : PyStr) : ℕ :=
  cs.foldl (fun acc c => acc * 10 + (c.toNat - 48)) 0

/-- Python `int(s)` on an unsigned token: one or more decimal digits.
(The model omits inner whitespace/underscores/unicode digits, which Python
also accepts; no claim depends on those.) -/
def pyIntMag? (cs : PyStr) : Option ℕ :=
  if cs ≠ [] ∧ cs.all Char.isDigit then some (digitsVal cs) else none

/-- Python `int(s)`: optional sign followed by digits; `none` models the
`ValueError` raised on a malformed token. -/
def pyInt? (s : PyStr) : Option ℤ :=
  if s.head? = some '-' then (pyIntMag? s.tail).map (fun n => -(Int.ofNat n))
  else if s.head? = some '+' then (pyIntMag? s.tail).map (fun n => Int.ofNat n)
  else (pyIntMag? s).map (fun n => Int.ofNat n)

/-- Unsigned decimal literal: `digits`, `digits.`, `.digits` or
`digits.digits`; returns (integer part, fraction digits value, fraction
length).  `none` models Python's `ValueError`. -/
def pyDecMag? (cs : PyStr) : Option (ℕ × ℕ × ℕ) :=
  let ip := cs.takeWhile (fun c => c != '.')
  let rest := cs.dropWhile (fun c => c != '.')
  match rest with
  | [] => if ip ≠ [] ∧ ip.all Char.isDigit then some (digitsVal ip, 0, 0) else none
  | _ :: frac =>
    if (ip ≠ [] ∨ frac ≠ []) ∧ ip.all Char.isDigit ∧ frac.all Char.isDigit ∧ '.' ∉ frac
    then some (digitsVal ip, digitsVal frac, frac.length) else none

/-- Numeric value of an unsigned decimal literal. -/
def decValue (p : ℕ × ℕ × ℕ) : ℚ :=
  (p.1 : ℚ) + (p.2.1 : ℚ) / (10 ^ p.2.2 : ℚ)

/-- Python `float(s)` on plain decimal literals: optional sign and digits
with an optional point.  (Exponents / `inf` / `nan` are omitted from the
model; no claim's inputs use them.) -/
def pyFloat? (s : PyStr) : Option ℚ :=
  if s.head? = some '-' then (pyDecMag? s.tail).map (fun p => -(decValue p))
  else if s.head? = some '+' then (pyDecMag? s.tail).map decValue
  else (pyDecMag? s).map decValue

/-- app.py lines 276-287.
```
def timestamp_to_seconds(timestamp_str):
    try:
        parts = timestamp_str.strip().split(':')
        if len(parts) == 2:
            minutes, seconds = parts
            return int(minutes) * 60 + float(seconds)
        elif len(parts) == 3:
            hours, minutes, seconds = parts
            return int(hours) * 3600 + int(minutes) * 60 + float(seconds)
    except:
        return 0
```
A failing `int`/`float` conversion raises inside the `try`, so those paths
return `0`; but a part count other than 2 or 3 falls through the
`if`/`elif` with no `else` and the function returns Python `None`,
embedded here as `none`. -/
def timestamp_to_seconds (timestamp_str : PyStr) : Option ℚ :=
  match splitOnChar ':' (pyStrip timestamp_str) with
  | [minutes, seconds] =>
    match pyInt? minutes, pyFloat? seconds with
    | some m, some sec => some ((m : ℚ) * 60 + sec)
    | _, _ => some 0
  | [hours, minutes, seconds] =>
    match pyInt? hours, pyInt? minutes, pyFloat? seconds with
    | some h, some m, some sec => some ((h : ℚ) * 3600 + (m : ℚ) * 60 + sec)
    | _, _, _ => some 0
  | _ => none

/-- Decimal digit string of a natural number; the fuel argument only drives
the recursion (`natDigits` supplies enough). -/
def natDigitsAux : ℕ → ℕ → PyStr
  | 0, _ => []
  | fuel + 1, n =>
    if n < 10 then [Char.ofNat (n + 48)]
    else natDigitsAux fuel (n / 10) ++ [Char.ofNat (n % 10 + 48)]

/-- Decimal rendering of a natural number, as Python `str(n)`. -/
def natDigits (n : ℕ) : PyStr := natDigitsAux (n + 1) n

/-- Python `str(k)` for an integer. -/
def intToPyStr (k : ℤ) : PyStr :=
  if k < 0 then '-' :: natDigits (-k).toNat else natDigits k.toNat

/-- Python `f"{k:02d}"`: pad to two characters with a leading zero. -/
def pad2 (k : ℤ) : PyStr :=
  if 0 ≤ k ∧ k < 10 then '0' :: natDigits k.toNat else intToPyStr k

/-- app.py lines 289-293.
```
def seconds_to_timestamp(seconds):
    mins = int(seconds // 60)
    secs = int(seconds % 60)
    return f"{mins}:{secs:02d}"
```
`seconds // 60` is float floor division, already integral, so `int` of it
is exactly `⌊v/60⌋`; `seconds % 60` is Python's floored modulo, always in
`[0, 60)` for the positive divisor 60, so `int` (truncation) of it is its
floor. -/
def seconds_to_timestamp (v : ℚ) : PyStr :=
  intToPyStr ⌊v / 60⌋ ++ ':' :: pad2 ⌊v - 60 * (⌊v / 60⌋ : ℚ)⌋

/-- Python `s.startswith(tag)` (first argument is the tag). -/
def startsWithTag : PyStr → PyStr → Bool
  | [], _ => true
  | _ :: _, [] => false
  | t :: ts, c :: cs => t = c && startsWithTag ts cs

/-- A key moment record, as the dicts flowing through app.py
(`{'timestamp', 'type', 'description', 'navigation_path'}`). -/
structure Moment where
  timestamp : PyStr
  type : PyStr
  description : PyStr
  navigation_path : Option PyStr
deriving DecidableEq, Repr

/-- A frame dict as built by `extract_all_frames`
(`{'moment', 'image', 'timestamp'}`); the raster image is opaque data of
type `α`. -/
structure Frame (α : Type) where
  moment : Moment
  image : α
  timestamp : PyStr
deriving DecidableEq, Repr

/-- app.py lines 320-345.
```
def extract_all_frames(video_path, key_moments):
    frames = []
    ...
    for i, moment in enumerate(key_moments):
        timestamp_seconds = timestamp_to_seconds(moment['timestamp'])
        ...
        frame = extract_frame_at_timestamp(video_path, timestamp_seconds)
        if frame:
            frames.append({'moment': moment, 'image': frame,
                           'timestamp': moment['timestamp']})
        ...
    return frames
```
`extract_frame_at_timestamp` (lines 295-318) wraps the cv2 decode in a
`try` and returns the image or `None`; it is abstracted here as the oracle
`extract`, a function of the seek offset it receives (the video path is
fixed for one batch).  The offset argument is `Option ℚ` because
`timestamp_to_seconds` can return Python `None` (`None * 1000` then raises
inside that `try`, so the oracle may map `none` to a failed decode).
Progress-bar calls are UI side effects with no data flow and are not
modelled. -/
def extract_all_frames {α : Type} (extract : Option ℚ → Option α)
    (key_moments : List Moment) : List (Frame α) :=
  key_moments.filterMap fun moment =>
    match extract (timestamp_to_seconds moment.timestamp) with
    | some img => some ⟨moment, img, moment.timestamp⟩
    | none => none

/-- One block appended to the python-docx `Document`: `add_heading`,
`add_paragraph` (with an optional named style), `add_picture`, or the
italic caption paragraph built in `add_screenshot`. -/
inductive DocNode (α : Type) where
  | heading (level : ℕ) (text : PyStr)
  | para (style : Option PyStr) (text : PyStr)
  | picture (image : α)
  | caption (text : PyStr)
deriving DecidableEq, Repr

/-- app.py lines 457-468: adds one paragraph with the stripped text, or
nothing when the stripped text is empty; the `frames` argument is unused
by the Python body. -/
def add_paragraph_with_screenshots {α : Type} (text : PyStr)
    (_frames : List (Frame α)) (style : Option PyStr) : List (DocNode α) :=
  if pyStrip text = [] then [] else [.para style (pyStrip text)]

/-- The caption text `f"Screenshot {screenshot_num}: {description}"`. -/
def captionText (screenshot_num : ℕ) (description : PyStr) : PyStr :=
  "Screenshot ".data ++ natDigits screenshot_num ++ ": ".data ++ description

/-- app.py lines 470-485.
```
def add_screenshot(doc, screenshot_num, frames):
    if screenshot_num <= len(frames):
        frame_data = frames[screenshot_num - 1]
        doc.add_picture(...)
        caption = doc.add_paragraph()
        caption_run = caption.add_run(f"Screenshot {screenshot_num}: ...")
```
There is no `else`: when `screenshot_num > len(frames)` nothing at all is
appended.  The only caller passes `screenshot_num ≥ 1`, so the `ℕ`
subtraction `screenshot_num - 1` agrees with Python's index. -/
def add_screenshot {α : Type} (screenshot_num : ℕ) (frames : List (Frame α)) :
    List (DocNode α) :=
  if screenshot_num ≤ frames.length then
    match frames.get? (screenshot_num - 1) with
    | some frame_data =>
      [.picture frame_data.image,
       .caption (captionText screenshot_num frame_data.moment.description)]
    | none => []
  else []

/-- One iteration of the `while i < len(lines)` loop of
`create_word_document` (app.py lines 502-546): the nodes appended for one
line, and the updated `screenshot_counter`. -/
def lineNodes {α : Type} (frames : List (Frame α)) (screenshot_counter : ℕ)
    (rawLine : PyStr) : List (DocNode α) × ℕ :=
  let line := pyStrip rawLine
  if line = [] then ([], screenshot_counter)
  else if startsWithTag "[TITLE]".data line then
    ([.heading 0 (pyStrip (line.drop 7))], screenshot_counter)
  else if startsWithTag "[SECTION]".data line then
    ([.heading 1 (pyStrip (line.drop 9))], screenshot_counter)
  else if startsWithTag "[SUBSECTION]".data line then
    ([.heading 2 (pyStrip (line.drop 12))], screenshot_counter)
  else if startsWithTag "[STEP]".data line then
    (add_paragraph_with_screenshots (pyStrip (line.drop 6)) frames
      (some "List Number".data), screenshot_counter)
  else if startsWithTag "[BULLET]".data line then
    (add_paragraph_with_screenshots (pyStrip (line.drop 8)) frames
      (some "List Bullet".data), screenshot_counter)
  else if startsWithTag "[SCREENSHOT]".data line then
    (add_screenshot (screenshot_counter + 1) frames, screenshot_counter + 1)
  else
    (add_paragraph_with_screenshots line frames none, screenshot_counter)

/-- The whole `while` loop over the split lines, threading the counter. -/
def createNodes {α : Type} (frames : List (Frame α)) :
    List PyStr → ℕ → List (DocNode α)
  | [], _ => []
  | l :: ls, c =>
    (lineNodes frames c l).1 ++ createNodes frames ls (lineNodes frames c l).2

/-- app.py lines 487-546: `content.split('\n')` is scanned line by line
with `screenshot_counter` starting at 0.  The result is the ordered block
sequence of the document body (font setup and the page footer are
renderer-level and carry no document nodes). -/
def create_word_document {α : Type} (content : PyStr) (frames : List (Frame α)) :
    List (DocNode α) :=
  createNodes frames (splitOnChar '\n' content) 0

/-- Number of lines of `content` that the assembler treats as
`[SCREENSHOT]` markers. -/
def countScreenshotLines (content : PyStr) : ℕ :=
  ((splitOnChar '\n' content).filter
    (fun l => startsWithTag "[SCREENSHOT]".data (pyStrip l))).length

/-- The images of the picture nodes of a document, in order. -/
def picturesOf {α : Type} : List (DocNode α) → List α
  | [] => []
  | .picture i :: ns => i :: picturesOf ns
  | _ :: ns => picturesOf ns

/-- The nodes that do not come from `add_screenshot`: headings and
paragraphs (the "rest of the document"). -/
def isTextNode {α : Type} : DocNode α → Bool
  | .heading _ _ => true
  | .para _ _ => true
  | _ => false

/-- The sort key of app.py line 1106, `timestamp_to_seconds(m['timestamp'])`,
read as a number on the branch where no key is `None`. -/
def momentKey (m : Moment) : Option ℚ := timestamp_to_seconds m.timestamp

/-- Key with `None` defaulted; only used on the branch where every key has
been checked to be `some`. -/
def momentKeyD (m : Moment) : ℚ := (momentKey m).getD 0

/-- app.py lines 1100-1110, the "Apply Changes & Extract Frames" commit:
```
if not edited_moments:
    st.error("Cannot extract frames - no moments remaining after edits!")
else:
    sorted_moments = sorted(edited_moments,
                            key=lambda m: timestamp_to_seconds(m['timestamp']))
```
`sorted` is a stable sort, embedded as `List.insertionSort`.  CPython
computes every key first and then compares keys; with two or more elements
every key takes part in at least one comparison, and any comparison
involving `None` (the fall-through value of `timestamp_to_seconds`)
raises `TypeError`.  `none` models both the empty-list error branch and
that `TypeError`: in neither case is a sorted list produced. -/
def applyChanges (edited_moments : List Moment) : Option (List Moment) :=
  if edited_moments.isEmpty then none
  else if 2 ≤ edited_moments.length ∧
      ¬ edited_moments.all (fun m => (momentKey m).isSome) then none
  else some (edited_moments.insertionSort (fun a b => momentKeyD a ≤ momentKeyD b))

/-! ### Character and digit-string lemmas -/

lemma isDigit_ne (c : Char) (h : c.isDigit = true) :
    c ≠ ':' ∧ c ≠ '-' ∧ c ≠ '+' ∧ (c != '.') = true ∧ isPySpace c = false := by
  refine ⟨?_, ?_, ?_, ?_, ?_⟩
  · rintro rfl; exact absurd h (by decide)
  · rintro rfl; exact absurd h (by decide)
  · rintro rfl; exact absurd h (by decide)
  · by_contra hb
    have : c = '.' := by
      simpa using hb
    subst this; exact absurd h (by decide)
  · by_contra hb
    have hsp : isPySpace c = true := by simpa using hb
    simp only [isPySpace, Bool.or_eq_true, decide_eq_true_eq] at hsp
    rcases hsp with ((((rfl | rfl) | rfl) | rfl) | rfl) | rfl <;> exact absurd h (by decide)

lemma digitsVal_append_single (a : PyStr) (c : Char) :
    digitsVal (a ++ [c]) = digitsVal a * 10 + (c.toNat - 48) := by
  simp [digitsVal, List.foldl_append]

lemma toNat_digitChar (m : ℕ) (h : m < 10) :
    (Char.ofNat (m + 48)).toNat = m + 48 ∧
      (Char.ofNat (m + 48)).isDigit = true := by
  interval_cases m <;> exact ⟨by decide, by decide⟩

lemma natDigitsAux_spec : ∀ fuel n, n < fuel →
    natDigitsAux fuel n ≠ [] ∧ (natDigitsAux fuel n).all Char.isDigit = true ∧
      digitsVal (natDigitsAux fuel n) = n := by
  intro fuel
  induction fuel with
  | zero => intro n hn; omega
  | succ fuel ih =>
    intro n hn
    by_cases h10 : n < 10
    · obtain ⟨ht, hd⟩ := toNat_digitChar n h10
      refine ⟨by simp [natDigitsAux, h10], ?_, ?_⟩
      · simp [natDigitsAux, h10, hd]
      · simp [natDigitsAux, h10, digitsVal, ht]
    · have hdiv : n / 10 < fuel := by
        have h1 : n / 10 < n := Nat.div_lt_self (by omega) (by omega)
        omega
      obtain ⟨hne, hall, hval⟩ := ih (n / 10) hdiv
      have hm : n % 10 < 10 := Nat.mod_lt _ (by omega)
      obtain ⟨ht, hd⟩ := toNat_digitChar (n % 10) hm
      refine ⟨by simp [natDigitsAux, h10], ?_, ?_⟩
      · simp [natDigitsAux, h10, List.all_append, hall, hd]
      · rw [natDigitsAux]
        simp only [if_neg h10]
        rw [digitsVal_append_single, hval, ht]
        omega

lemma natDigits_spec (n : ℕ) :
    natDigits n ≠ [] ∧ (natDigits n).all Char.isDigit = true ∧
      digitsVal (natDigits n) = n :=
  natDigitsAux_spec (n + 1) n (Nat.lt_succ_self n)

lemma digitsVal_cons_zero (cs : PyStr) : digitsVal ('0' :: cs) = digitsVal cs := rfl

/-! ### Round-trips between rendered numbers and the Python parsers -/

lemma pyIntMag?_natDigits (n : ℕ) : pyIntMag? (natDigits n) = some n := by
  obtain ⟨hne, hall, hval⟩ := natDigits_spec n
  rw [pyIntMag?, if_pos ⟨hne, hall⟩, hval]

lemma head_isDigit_of_all {l : PyStr} {c : Char} (hall : l.all Char.isDigit = true)
    (hh : l.head? = some c) : c.isDigit = true := by
  cases l with
  | nil => simp at hh
  | cons x xs =>
    simp only [List.head?_cons, Option.some.injEq] at hh
    subst hh
    simp [List.all_cons] at hall
    exact hall.1

lemma pyInt?_natDigits (n : ℕ) : pyInt? (natDigits n) = some (n : ℤ) := by
  obtain ⟨hne, hall, _⟩ := natDigits_spec n
  obtain ⟨c, cs, hcons⟩ := List.exists_cons_of_ne_nil hne
  have hc : c.isDigit = true := head_isDigit_of_all hall (by rw [hcons]; rfl)
  obtain ⟨_, hminus, hplus, _, _⟩ := isDigit_ne c hc
  rw [pyInt?]
  rw [hcons]
  rw [if_neg (by simp [hminus]), if_neg (by simp [hplus]), ← hcons,
    pyIntMag?_natDigits]
  rfl

lemma pyInt?_intToPyStr (k : ℤ) (hk : 0 ≤ k) : pyInt? (intToPyStr k) = some k := by
  rw [intToPyStr, if_neg (by omega), pyInt?_natDigits, Int.toNat_of_nonneg hk]

lemma takeWhile_all {p : Char → Bool} {l : PyStr} (h : ∀ c ∈ l, p c = true) :
    l.takeWhile p = l :=
  List.takeWhile_eq_self_iff.2 h

lemma dropWhileAll {p : Char → Bool} {l : PyStr} (h : ∀ c ∈ l, p c = true) :
    l.dropWhile p = [] :=
  List.dropWhile_eq_nil_iff.2 h

lemma pyDecMag?_digits {l : PyStr} (hne : l ≠ []) (hall : l.all Char.isDigit = true) :
    pyDecMag? l = some (digitsVal l, 0, 0) := by
  have hd : ∀ c ∈ l, (c != '.') = true := by
    intro c hc
    exact (isDigit_ne c (by simpa using List.all_eq_true.1 hall c hc)).2.2.2.1
  rw [pyDecMag?]
  simp only [takeWhile_all hd, dropWhileAll hd]
  rw [if_pos ⟨hne, hall⟩]

lemma decValue_int (n : ℕ) : decValue (n, 0, 0) = (n : ℚ) := by
  simp [decValue]

lemma pyFloat?_digits {l : PyStr} (hne : l ≠ []) (hall : l.all Char.isDigit = true) :
    pyFloat? l = some ((digitsVal l : ℚ)) := by
  obtain ⟨c, cs, hcons⟩ := List.exists_cons_of_ne_nil hne
  have hc : c.isDigit = true := head_isDigit_of_all hall (by rw [hcons]; rfl)
  obtain ⟨_, hminus, hplus, _, _⟩ := isDigit_ne c hc
  rw [pyFloat?, hcons, if_neg (by simp [hminus]), if_neg (by simp [hplus]), ← hcons,
    pyDecMag?_digits hne hall, Option.map_some', decValue_int]

lemma pad2_digits (r : ℤ) (hr : 0 ≤ r) :
    pad2 r ≠ [] ∧ (pad2 r).all Char.isDigit = true ∧ digitsVal (pad2 r) = r.toNat := by
  rw [pad2]
  by_cases h : 0 ≤ r ∧ r < 10
  · obtain ⟨hne, hall, hval⟩ := natDigits_spec r.toNat
    rw [if_pos h]
    refine ⟨by simp, ?_, ?_⟩
    · simp [List.all_cons, hall]
    · rw [digitsVal_cons_zero, hval]
  · rw [if_neg h, intToPyStr, if_neg (by omega)]
    exact natDigits_spec r.toNat

lemma pyFloat?_pad2 (r : ℤ) (hr : 0 ≤ r) : pyFloat? (pad2 r) = some ((r : ℚ)) := by
  obtain ⟨hne, hall, hval⟩ := pad2_digits r hr
  rw [pyFloat?_digits hne hall, hval]
  norm_num
  exact_mod_cast Int.toNat_of_nonneg hr

/-! ### Non-negativity of parsed sign-free tokens -/

lemma pyInt?_nonneg {s : PyStr} {m : ℤ} (hs : '-' ∉ s) (h : pyInt? s = some m) :
    0 ≤ m := by
  rw [pyInt?] at h
  by_cases h1 : s.head? = some '-'
  · exact absurd (List.mem_of_mem_head? h1) hs
  · rw [if_neg h1] at h
    by_cases h2 : s.head? = some '+'
    · rw [if_pos h2] at h
      rcases h3 : pyIntMag? s.tail with _ | n
      · simp [h3] at h
      · rw [h3] at h
        simp only [Option.map_some', Option.some.injEq] at h
        exact le_of_le_of_eq (Int.natCast_nonneg n) h
    · rw [if_neg h2] at h
      rcases h3 : pyIntMag? s with _ | n
      · simp [h3] at h
      · rw [h3] at h
        simp only [Option.map_some', Option.some.injEq] at h
        exact le_of_le_of_eq (Int.natCast_nonneg n) h

lemma decValue_nonneg (p : ℕ × ℕ × ℕ) : 0 ≤ decValue p := by
  rw [decValue]
  positivity

lemma pyFloat?_nonneg {s : PyStr} {v : ℚ} (hs : '-' ∉ s) (h : pyFloat? s = some v) :
    0 ≤ v := by
  rw [pyFloat?] at h
  by_cases h1 : s.head? = some '-'
  · exact absurd (List.mem_of_mem_head? h1) hs
  · rw [if_neg h1] at h
    by_cases h2 : s.head? = some '+'
    · rw [if_pos h2] at h
      obtain ⟨p, _, hp⟩ := Option.map_eq_some'.1 h
      rw [← hp]
      exact decValue_nonneg p
    · rw [if_neg h2] at h
      obtain ⟨p, _, hp⟩ := Option.map_eq_some'.1 h
      rw [← hp]
      exact decValue_nonneg p

/-! ### `splitOnChar` and `pyStrip` lemmas -/

lemma splitOnChar_single {sep : Char} {l : PyStr} (h : sep ∉ l) :
    splitOnChar sep l = [l] := by
  induction l with
  | nil => rfl
  | cons c cs ih =>
    have hc : ¬ c = sep := fun hcs => h (hcs ▸ List.mem_cons_self c cs)
    have ih2 := ih (fun hm => h (List.mem_cons_of_mem c hm))
    simp only [splitOnChar, if_neg hc, ih2]

lemma splitOnChar_append {sep : Char} {a : PyStr} (b : PyStr) (h : sep ∉ a) :
    splitOnChar sep (a ++ sep :: b) = a :: splitOnChar sep b := by
  induction a with
  | nil => simp [splitOnChar]
  | cons c cs ih =>
    have hc : ¬ c = sep := fun hcs => h (hcs ▸ List.mem_cons_self c cs)
    have ih2 := ih (fun hm => h (List.mem_cons_of_mem c hm))
    simp only [List.cons_append, splitOnChar, List.append_eq, if_neg hc, ih2]

lemma dropWhile_eq_self_of_all {p : Char → Bool} {l : PyStr}
    (h : ∀ c ∈ l, p c = false) : l.dropWhile p = l := by
  cases l with
  | nil => rfl
  | cons c cs =>
    rw [List.dropWhile_cons, if_neg (by simp [h c (List.mem_cons_self c cs)])]

lemma dropWhile_length_le (p : Char → Bool) :
    ∀ l : PyStr, (l.dropWhile p).length ≤ l.length := by
  intro l
  induction l with
  | nil => simp
  | cons c cs ih =>
    rw [List.dropWhile_cons]
    by_cases hp : p c = true
    · rw [if_pos hp]
      simpa using Nat.le_succ_of_le ih
    · rw [if_neg hp]

lemma pyStrip_eq_self {l : PyStr} (h : ∀ c ∈ l, isPySpace c = false) :
    pyStrip l = l := by
  rw [pyStrip, dropWhile_eq_self_of_all h,
    dropWhile_eq_self_of_all (fun c hc => h c (List.mem_reverse.1 hc)),
    List.reverse_reverse]

lemma pyStrip_eq_rdropWhile (l : PyStr) :
    pyStrip l = List.rdropWhile isPySpace (l.dropWhile isPySpace) := rfl

lemma rdropWhile_append_eq {p : Char → Bool} (l : PyStr) :
    ∃ t, List.rdropWhile p l ++ t = l := by
  refine ⟨(l.reverse.takeWhile p).reverse, ?_⟩
  rw [List.rdropWhile]
  rw [← List.reverse_append, List.takeWhile_append_dropWhile, List.reverse_reverse]

lemma pyStrip_idem (l : PyStr) : pyStrip (pyStrip l) = pyStrip l := by
  have hdw : (l.dropWhile isPySpace).dropWhile isPySpace = l.dropWhile isPySpace :=
    List.dropWhile_idempotent _ _
  obtain ⟨t, ht⟩ := rdropWhile_append_eq (p := isPySpace) (l.dropWhile isPySpace)
  have hXdrop : (pyStrip l).dropWhile isPySpace = pyStrip l := by
    rw [pyStrip_eq_rdropWhile]
    cases hXc : List.rdropWhile isPySpace (l.dropWhile isPySpace) with
    | nil => rfl
    | cons x xs =>
      have hDc : l.dropWhile isPySpace = x :: (xs ++ t) := by
        rw [← ht, hXc]; simp
      have hx : isPySpace x = false := by
        by_cases hpx : isPySpace x = true
        · exfalso
          have h2 := hdw
          rw [hDc, List.dropWhile_cons, if_pos (by simp [hpx])] at h2
          have hlen := congrArg List.length h2
          have hle := dropWhile_length_le isPySpace (xs ++ t)
          simp [List.length_append] at hlen hle
          omega
        · simpa using hpx
      rw [List.dropWhile_cons, if_neg (by simp [hx])]
  conv_lhs => rw [pyStrip_eq_rdropWhile (pyStrip l), hXdrop,
    pyStrip_eq_rdropWhile l]
  rw [List.rdropWhile_idempotent]
  exact (pyStrip_eq_rdropWhile l).symm

/-! ### `timestamp_to_seconds` branch formulas and the format round-trip -/

lemma ts_two_part {s a b : PyStr} {m : ℤ} {sec : ℚ}
    (hsplit : splitOnChar ':' (pyStrip s) = [a, b])
    (hm : pyInt? a = some m) (hsec : pyFloat? b = some sec) :
    timestamp_to_seconds s = some ((m : ℚ) * 60 + sec) := by
  simp only [timestamp_to_seconds, hsplit, hm, hsec]

lemma ts_three_part {s a b c : PyStr} {hh mm : ℤ} {sec : ℚ}
    (hsplit : splitOnChar ':' (pyStrip s) = [a, b, c])
    (hh2 : pyInt? a = some hh) (hm : pyInt? b = some mm)
    (hsec : pyFloat? c = some sec) :
    timestamp_to_seconds s = some ((hh : ℚ) * 3600 + (mm : ℚ) * 60 + sec) := by
  simp only [timestamp_to_seconds, hsplit, hh2, hm, hsec]

lemma all_isDigit_mem {l : PyStr} (hall : l.all Char.isDigit = true) :
    ∀ c ∈ l, c.isDigit = true := by
  intro c hc
  simpa using List.all_eq_true.1 hall c hc

lemma ts_roundtrip {v : ℚ} (hv : 0 ≤ v) (hden : v.den = 1) :
    timestamp_to_seconds (seconds_to_timestamp v) = some v := by
  obtain ⟨z, hz⟩ : ∃ z : ℤ, v = (z : ℚ) :=
    ⟨v.num, ((Rat.den_eq_one_iff v).1 hden).symm⟩
  subst hz
  have hz0 : 0 ≤ z := by exact_mod_cast hv
  have h60 : ((60 : ℕ) : ℚ) = (60 : ℚ) := by norm_num
  have hfd : ⌊(z : ℚ) / 60⌋ = z / 60 := by
    rw [← h60, Rat.floor_intCast_div_natCast]
    norm_num
  have hmod : ⌊(z : ℚ) - 60 * ((⌊(z : ℚ) / 60⌋ : ℤ) : ℚ)⌋ = z % 60 := by
    rw [hfd]
    have hcast : (z : ℚ) - 60 * ((z / 60 : ℤ) : ℚ) = ((z - 60 * (z / 60) : ℤ) : ℚ) := by
      push_cast
      ring
    rw [hcast, Int.floor_intCast]
    omega
  have hq0 : 0 ≤ z / 60 := Int.ediv_nonneg hz0 (by norm_num)
  have hr0 : 0 ≤ z % 60 := Int.emod_nonneg z (by norm_num)
  have hqstr : intToPyStr (z / 60) = natDigits (z / 60).toNat := by
    rw [intToPyStr, if_neg (by omega)]
  obtain ⟨hqne, hqall, _⟩ := natDigits_spec (z / 60).toNat
  obtain ⟨hrne, hrall, _⟩ := pad2_digits (z % 60) hr0
  have hqdig : ∀ c ∈ intToPyStr (z / 60), c.isDigit = true := by
    rw [hqstr]
    exact all_isDigit_mem hqall
  have hrdig : ∀ c ∈ pad2 (z % 60), c.isDigit = true := all_isDigit_mem hrall
  have hnospace : ∀ c ∈ intToPyStr (z / 60) ++ ':' :: pad2 (z % 60),
      isPySpace c = false := by
    intro c hc
    rcases List.mem_append.1 hc with hc1 | hc2
    · exact (isDigit_ne c (hqdig c hc1)).2.2.2.2
    · rcases List.mem_cons.1 hc2 with rfl | hc3
      · decide
      · exact (isDigit_ne c (hrdig c hc3)).2.2.2.2
  have hsplit : splitOnChar ':' (pyStrip (seconds_to_timestamp ((z : ℤ) : ℚ))) =
      [intToPyStr (z / 60), pad2 (z % 60)] := by
    rw [seconds_to_timestamp, hmod, hfd, pyStrip_eq_self hnospace,
      splitOnChar_append _ (fun hc => by
        have := (isDigit_ne ':' (hqdig ':' hc)).1
        exact this rfl),
      splitOnChar_single (fun hc => by
        have := (isDigit_ne ':' (hrdig ':' hc)).1
        exact this rfl)]
  rw [ts_two_part hsplit (pyInt?_intToPyStr _ hq0) (pyFloat?_pad2 _ hr0)]
  congr 1
  have hde := Int.ediv_add_emod z 60
  have hcast : (60 : ℚ) * ((z / 60 : ℤ) : ℚ) + ((z % 60 : ℤ) : ℚ) = ((z : ℤ) : ℚ) := by
    exact_mod_cast congrArg (fun t : ℤ => (t : ℚ)) hde
  linarith

/-! ### Tag matching lemmas -/

lemma startsWithTag_iff (t : PyStr) : ∀ s, startsWithTag t s = true ↔ ∃ r, s = t ++ r := by
  induction t with
  | nil =>
    intro s
    simp [startsWithTag]
  | cons tc ts ih =>
    intro s
    cases s with
    | nil => simp [startsWithTag]
    | cons c cs =>
      simp only [startsWithTag, Bool.and_eq_true, decide_eq_true_eq, List.cons_append]
      constructor
      · rintro ⟨rfl, h⟩
        obtain ⟨r, rfl⟩ := (ih cs).1 h
        exact ⟨r, rfl⟩
      · rintro ⟨r, hr⟩
        injection hr with h1 h2
        subst h1
        exact ⟨rfl, (ih cs).2 ⟨r, h2⟩⟩

lemma sw_ss_self (r : PyStr) :
    startsWithTag "[SCREENSHOT]".data
      ('[' :: 'S' :: 'C' :: 'R' :: 'E' :: 'E' :: 'N' :: 'S' :: 'H' :: 'O' :: 'T' :: ']' :: r)
      = true := rfl

lemma sw_ss_not_title (cs : PyStr) :
    startsWithTag "[TITLE]".data ('[' :: 'S' :: cs) = false := rfl

lemma sw_ss_not_section (cs : PyStr) :
    startsWithTag "[SECTION]".data ('[' :: 'S' :: 'C' :: cs) = false := rfl

lemma sw_ss_not_subsection (cs : PyStr) :
    startsWithTag "[SUBSECTION]".data ('[' :: 'S' :: 'C' :: cs) = false := rfl

lemma sw_ss_not_step (cs : PyStr) :
    startsWithTag "[STEP]".data ('[' :: 'S' :: 'C' :: cs) = false := rfl

lemma sw_ss_not_bullet (cs : PyStr) :
    startsWithTag "[BULLET]".data ('[' :: 'S' :: cs) = false := rfl

/-! ### `lineNodes` case lemmas -/

lemma lineNodes_blank {α : Type} (frames : List (Frame α)) (c : ℕ) (l : PyStr)
    (h : pyStrip l = []) : lineNodes frames c l = ([], c) := by
  simp [lineNodes, h]

lemma lineNodes_SS {α : Type} (frames : List (Frame α)) (c : ℕ) (l : PyStr)
    (h : startsWithTag "[SCREENSHOT]".data (pyStrip l) = true) :
    lineNodes frames c l = (add_screenshot (c + 1) frames, c + 1) := by
  obtain ⟨r, hr⟩ := (startsWithTag_iff _ _).1 h
  have hr2 : pyStrip l =
      '[' :: 'S' :: 'C' :: 'R' :: 'E' :: 'E' :: 'N' :: 'S' :: 'H' :: 'O' :: 'T' :: ']' :: r := by
    rw [hr]
    rfl
  simp only [lineNodes, hr2]
  rw [if_neg (by simp), if_neg (by rw [sw_ss_not_title]; simp),
    if_neg (by rw [sw_ss_not_section]; simp), if_neg (by rw [sw_ss_not_subsection]; simp),
    if_neg (by rw [sw_ss_not_step]; simp), if_neg (by rw [sw_ss_not_bullet]; simp),
    if_pos (by rw [sw_ss_self])]

lemma addpara_pictures {α : Type} (t : PyStr) (fs : List (Frame α)) (st : Option PyStr) :
    picturesOf (add_paragraph_with_screenshots t fs st) = [] := by
  rw [add_paragraph_with_screenshots]
  split
  · rfl
  · rfl

lemma addpara_filter {α : Type} (t : PyStr) (fs : List (Frame α)) (st : Option PyStr) :
    (add_paragraph_with_screenshots t fs st).filter isTextNode =
      add_paragraph_with_screenshots t fs st := by
  rw [add_paragraph_with_screenshots]
  split
  · rfl
  · simp [isTextNode]

lemma addpara_frames_indep {α : Type} (t : PyStr) (fs fs' : List (Frame α))
    (st : Option PyStr) :
    add_paragraph_with_screenshots t fs st = add_paragraph_with_screenshots t fs' st := rfl

lemma lineNodes_not_SS {α : Type} (c : ℕ) (l : PyStr)
    (h : startsWithTag "[SCREENSHOT]".data (pyStrip l) = false) :
    ∃ ns : List (DocNode α), picturesOf ns = [] ∧ ns.filter isTextNode = ns ∧
      ∀ fs : List (Frame α), lineNodes fs c l = (ns, c) := by
  have hssf : ¬ startsWithTag "[SCREENSHOT]".data (pyStrip l) = true := by simp [h]
  by_cases h0 : pyStrip l = []
  · exact ⟨[], rfl, rfl, fun fs => lineNodes_blank fs c l h0⟩
  by_cases h1 : startsWithTag "[TITLE]".data (pyStrip l) = true
  · refine ⟨[.heading 0 (pyStrip ((pyStrip l).drop 7))], rfl, rfl, fun fs => ?_⟩
    simp only [lineNodes]
    rw [if_neg h0, if_pos h1]
  by_cases h2 : startsWithTag "[SECTION]".data (pyStrip l) = true
  · refine ⟨[.heading 1 (pyStrip ((pyStrip l).drop 9))], rfl, rfl, fun fs => ?_⟩
    simp only [lineNodes]
    rw [if_neg h0, if_neg h1, if_pos h2]
  by_cases h3 : startsWithTag "[SUBSECTION]".data (pyStrip l) = true
  · refine ⟨[.heading 2 (pyStrip ((pyStrip l).drop 12))], rfl, rfl, fun fs => ?_⟩
    simp only [lineNodes]
    rw [if_neg h0, if_neg h1, if_neg h2, if_pos h3]
  by_cases h4 : startsWithTag "[STEP]".data (pyStrip l) = true
  · refine ⟨add_paragraph_with_screenshots (pyStrip ((pyStrip l).drop 6)) []
      (some "List Number".data), addpara_pictures _ _ _, addpara_filter _ _ _, fun fs => ?_⟩
    simp only [lineNodes]
    rw [if_neg h0, if_neg h1, if_neg h2, if_neg h3, if_pos h4]
    rw [addpara_frames_indep _ fs []]
  by_cases h5 : startsWithTag "[BULLET]".data (pyStrip l) = true
  · refine ⟨add_paragraph_with_screenshots (pyStrip ((pyStrip l).drop 8)) []
      (some "List Bullet".data), addpara_pictures _ _ _, addpara_filter _ _ _, fun fs => ?_⟩
    simp only [lineNodes]
    rw [if_neg h0, if_neg h1, if_neg h2, if_neg h3, if_neg h4, if_pos h5]
    rw [addpara_frames_indep _ fs []]
  · refine ⟨add_paragraph_with_screenshots (pyStrip l) [] none,
      addpara_pictures _ _ _, addpara_filter _ _ _, fun fs => ?_⟩
    simp only [lineNodes]
    rw [if_neg h0, if_neg h1, if_neg h2, if_neg h3, if_neg h4, if_neg h5, if_neg hssf]
    rw [addpara_frames_indep _ fs []]

/-! ### Picture and text-node invariants of the assembler -/

lemma picturesOf_append {α : Type} (a b : List (DocNode α)) :
    picturesOf (a ++ b) = picturesOf a ++ picturesOf b := by
  induction a with
  | nil => rfl
  | cons n ns ih => cases n <;> simp [picturesOf, ih]

lemma add_screenshot_pics {α : Type} (c : ℕ) (fs : List (Frame α)) :
    picturesOf (add_screenshot (c + 1) fs) = ((fs.drop c).take 1).map Frame.image := by
  rw [add_screenshot]
  by_cases h : c + 1 ≤ fs.length
  · have hc : c < fs.length := by omega
    rw [if_pos h]
    have hg : fs.get? (c + 1 - 1) = some (fs.get ⟨c, hc⟩) := by
      simp [List.get?_eq_get hc]
    simp only [hg, List.drop_eq_getElem_cons hc, List.take_succ_cons, List.take_zero,
      List.map_cons, List.map_nil, picturesOf, List.get_eq_getElem]
  · have hc : fs.length ≤ c := by omega
    rw [if_neg h, List.drop_eq_nil_of_le hc]
    rfl

lemma filter_text_add_screenshot {α : Type} (n : ℕ) (fs : List (Frame α)) :
    (add_screenshot n fs).filter isTextNode = [] := by
  rw [add_screenshot]
  by_cases h : n ≤ fs.length
  · rw [if_pos h]
    cases hg : fs.get? (n - 1) with
    | none => simp only [hg]; rfl
    | some fd => simp only [hg]; rfl
  · rw [if_neg h]
    rfl

lemma lineNodes_counter {α : Type} (fs : List (Frame α)) (c : ℕ) (l : PyStr) :
    (lineNodes fs c l).2 =
      if startsWithTag "[SCREENSHOT]".data (pyStrip l) = true then c + 1 else c := by
  by_cases h : startsWithTag "[SCREENSHOT]".data (pyStrip l) = true
  · rw [lineNodes_SS fs c l h, if_pos h]
  · obtain ⟨ns, -, -, hall⟩ := lineNodes_not_SS (α := α) c l (by simpa using h)
    rw [hall fs, if_neg h]

lemma lineNodes_pics {α : Type} (fs : List (Frame α)) (c : ℕ) (l : PyStr) :
    picturesOf (lineNodes fs c l).1 =
      if startsWithTag "[SCREENSHOT]".data (pyStrip l) = true
      then ((fs.drop c).take 1).map Frame.image else [] := by
  by_cases h : startsWithTag "[SCREENSHOT]".data (pyStrip l) = true
  · rw [lineNodes_SS fs c l h, if_pos h]
    exact add_screenshot_pics c fs
  · obtain ⟨ns, hp, -, hall⟩ := lineNodes_not_SS (α := α) c l (by simpa using h)
    rw [hall fs, if_neg h]
    exact hp

lemma take_one_add {α : Type} (fs : List (Frame α)) (c k : ℕ) :
    (fs.drop c).take 1 ++ (fs.drop (c + 1)).take k = (fs.drop c).take (k + 1) := by
  have hdd : fs.drop (c + 1) = (fs.drop c).drop 1 := by
    rw [List.drop_drop, Nat.add_comm]
  cases hd : fs.drop c with
  | nil => simp [hdd, hd]
  | cons x xs => simp [hdd, hd, List.take_succ_cons]

lemma pics_createNodes {α : Type} (fs : List (Frame α)) :
    ∀ (lines : List PyStr) (c : ℕ),
      picturesOf (createNodes fs lines c) =
        ((fs.drop c).take
          ((lines.filter
            (fun l => startsWithTag "[SCREENSHOT]".data (pyStrip l))).length)).map
          Frame.image := by
  intro lines
  induction lines with
  | nil =>
    intro c
    simp [createNodes, picturesOf]
  | cons l ls ih =>
    intro c
    simp only [createNodes]
    rw [picturesOf_append, lineNodes_pics, lineNodes_counter, ih]
    by_cases h : startsWithTag "[SCREENSHOT]".data (pyStrip l) = true
    · rw [if_pos h, if_pos h, List.filter_cons_of_pos (by simp [h])]
      rw [← List.map_append, take_one_add]
      simp
    · rw [if_neg h, if_neg h, List.filter_cons_of_neg (by simp [h])]
      simp

lemma text_createNodes {α : Type} (fs fs' : List (Frame α)) :
    ∀ (lines : List PyStr) (c : ℕ),
      (createNodes fs lines c).filter isTextNode =
        (createNodes fs' lines c).filter isTextNode := by
  intro lines
  induction lines with
  | nil => intro c; rfl
  | cons l ls ih =>
    intro c
    simp only [createNodes, List.filter_append]
    by_cases h : startsWithTag "[SCREENSHOT]".data (pyStrip l) = true
    · rw [lineNodes_SS fs c l h, lineNodes_SS fs' c l h]
      simp only [filter_text_add_screenshot]
      rw [ih]
    · obtain ⟨ns, -, -, hall⟩ := lineNodes_not_SS (α := α) c l (by simpa using h)
      rw [hall fs, hall fs']
      simp only
      rw [ih]

/-! ### Commit (Apply Changes) lemmas -/

instance : IsTotal Moment (fun a b => momentKeyD a ≤ momentKeyD b) :=
  ⟨fun _ _ => le_total _ _⟩

instance : IsTrans Moment (fun a b => momentKeyD a ≤ momentKeyD b) :=
  ⟨fun _ _ _ => le_trans⟩

lemma applyChanges_some {ms : List Moment} (hne : ms ≠ [])
    (hall : ∀ m ∈ ms, (momentKey m).isSome = true) :
    applyChanges ms =
      some (ms.insertionSort (fun a b => momentKeyD a ≤ momentKeyD b)) := by
  rw [applyChanges, if_neg (by simp [hne])]
  rw [if_neg ?hc]
  case hc =>
    rintro ⟨-, hB⟩
    exact hB (by simpa using List.all_eq_true.2 (by simpa using hall))

/-! ### FrameBatch lemmas -/

lemma eaf_moments_sublist {α : Type} (extract : Option ℚ → Option α) :
    ∀ moments : List Moment,
      ((extract_all_frames extract moments).map Frame.moment).Sublist moments := by
  intro moments
  induction moments with
  | nil => simp [extract_all_frames]
  | cons m ms ih =>
    rw [extract_all_frames, List.filterMap_cons]
    cases hx : extract (timestamp_to_seconds m.timestamp) with
    | none =>
      simp only [hx]
      exact (ih).cons m
    | some img =>
      simp only [hx, List.map_cons]
      exact (ih).cons₂ m

lemma eaf_mem {α : Type} {extract : Option ℚ → Option α} {moments : List Moment}
    {f : Frame α} (hf : f ∈ extract_all_frames extract moments) :
    f.moment ∈ moments ∧ extract (timestamp_to_seconds f.moment.timestamp) ≠ none := by
  rw [extract_all_frames] at hf
  obtain ⟨a, ha, hfa⟩ := List.mem_filterMap.1 hf
  cases hx : extract (timestamp_to_seconds a.timestamp) with
  | none =>
    rw [hx] at hfa
    simp at hfa
  | some img =>
    rw [hx] at hfa
    simp only [Option.some.injEq] at hfa
    have hm : f.moment = a := by rw [← hfa]
    rw [hm, hx]
    exact ⟨ha, by simp⟩

/-! ### Claim theorems -/

/-- C2: the claim says every malformed timestamp - any colon-part count other
than 2 or 3, any non-numeric token, or the empty string - parses to 0
seconds.  The code disagrees for the part-count case: the `if`/`elif` of
`timestamp_to_seconds` has no `else`, so `parse("")` and `parse("abc")`
return Python `None` (embedded `none`), not `0`; only a failing numeric
conversion inside a 2- or 3-part string hits the `except: return 0` path
(e.g. `"a:b"`).  The `except` clause shows the 0-fallback intent, and the
`None` return crashes the moment sort downstream, so this is a slip in the
code, not in the spec. -/
theorem claim2_parse_falls_through :
    timestamp_to_seconds "".data = none ∧
    timestamp_to_seconds "abc".data = none ∧
    timestamp_to_seconds "a:b".data = some 0 := by
  refine ⟨by decide, by decide, by decide⟩

/-- C7: `timestamp_to_seconds` splits on `':'`; a well-formed 2-part string
gives `minutes*60 + seconds`, a well-formed 3-part string gives
`hours*3600 + minutes*60 + seconds`; in particular
`parse("2:30") = 150` and `parse("1:02:05") = 3725`. -/
theorem claim7_parse_formulas :
    (∀ (s a b : PyStr) (m : ℤ) (sec : ℚ), splitOnChar ':' (pyStrip s) = [a, b] →
      pyInt? a = some m → pyFloat? b = some sec →
      timestamp_to_seconds s = some ((m : ℚ) * 60 + sec)) ∧
    (∀ (s a b c : PyStr) (hh mm : ℤ) (sec : ℚ),
      splitOnChar ':' (pyStrip s) = [a, b, c] →
      pyInt? a = some hh → pyInt? b = some mm → pyFloat? c = some sec →
      timestamp_to_seconds s = some ((hh : ℚ) * 3600 + (mm : ℚ) * 60 + sec)) ∧
    timestamp_to_seconds "2:30".data = some 150 ∧
    timestamp_to_seconds "1:02:05".data = some 3725 := by
  refine ⟨fun s a b m sec h1 h2 h3 => ts_two_part h1 h2 h3,
    fun s a b c hh mm sec h1 h2 h3 h4 => ts_three_part h1 h2 h3 h4, ?_, ?_⟩
  · have h1 : splitOnChar ':' (pyStrip "2:30".data) = ["2".data, "30".data] := by decide
    have h2 : pyInt? "2".data = some 2 := by decide
    have h3 : pyFloat? "30".data = some 30 := by
      have h : pyDecMag? "30".data = some (30, 0, 0) := by decide
      simp [pyFloat?, h, decValue]
    rw [ts_two_part h1 h2 h3]
    norm_num
  · have h1 : splitOnChar ':' (pyStrip "1:02:05".data) =
        ["1".data, "02".data, "05".data] := by decide
    have h2 : pyInt? "1".data = some 1 := by decide
    have h3 : pyInt? "02".data = some 2 := by decide
    have h4 : pyFloat? "05".data = some 5 := by
      have h : pyDecMag? "05".data = some (5, 0, 0) := by decide
      simp [pyFloat?, h, decValue]
    rw [ts_three_part h1 h2 h3 h4]
    norm_num

/-- C7 witness: the 2-part formula applied at the concrete input `"7:09"`. -/
theorem claim7_witness :
    timestamp_to_seconds "7:09".data = some ((7 : ℚ) * 60 + 9) :=
  claim7_parse_formulas.1 "7:09".data "7".data "09".data 7 9 (by decide) (by decide)
    (by
      have h : pyDecMag? "09".data = some (9, 0, 0) := by decide
      simp [pyFloat?, h, decValue])

/-- C9 counterexample: the claim says `parse` yields a non-negative number
of seconds for every input string, but Python `int("-1")` succeeds, so
`parse("-1:00") = -60`, a negative TimeCode. -/
theorem claim9_counterexample :
    timestamp_to_seconds "-1:00".data = some (-60) ∧ ((-60 : ℚ) < 0) := by
  constructor
  · have h1 : splitOnChar ':' (pyStrip "-1:00".data) = ["-1".data, "00".data] := by decide
    have h2 : pyInt? "-1".data = some (-1) := by decide
    have h3 : pyFloat? "00".data = some 0 := by
      have h : pyDecMag? "00".data = some (0, 0, 0) := by decide
      simp [pyFloat?, h, decValue]
    rw [ts_two_part h1 h2 h3]
    norm_num
  · norm_num

/-- C9 (amended): for every input string whose colon-separated tokens
contain no minus sign (in particular all well-formed non-negative
timestamps), every value `timestamp_to_seconds` returns is non-negative;
the unrestricted claim is refuted by `claim9_counterexample`. -/
theorem claim9_nonneg_signfree (s : PyStr) (v : ℚ)
    (hsign : ∀ part ∈ splitOnChar ':' (pyStrip s), '-' ∉ part)
    (h : timestamp_to_seconds s = some v) : 0 ≤ v := by
  rw [timestamp_to_seconds] at h
  rcases hsp : splitOnChar ':' (pyStrip s) with - | ⟨a, - | ⟨b, - | ⟨c, - | ⟨d, rest⟩⟩⟩⟩
  · rw [hsp] at h
    simp at h
  · rw [hsp] at h
    simp at h
  · rw [hsp] at h
    have ha : '-' ∉ a := hsign a (by rw [hsp]; simp)
    have hb : '-' ∉ b := hsign b (by rw [hsp]; simp)
    cases hia : pyInt? a with
    | none =>
      simp only [hia] at h
      cases hib : pyFloat? b <;> simp only [hib, Option.some.injEq] at h <;>
        exact le_of_eq h
    | some m =>
      cases hib : pyFloat? b with
      | none =>
        simp only [hia, hib, Option.some.injEq] at h
        exact le_of_eq h
      | some sec =>
        simp only [hia, hib, Option.some.injEq] at h
        have h1 : (0 : ℚ) ≤ (m : ℚ) := by exact_mod_cast pyInt?_nonneg ha hia
        have h2 : (0 : ℚ) ≤ sec := pyFloat?_nonneg hb hib
        nlinarith [h1, h2]
  · rw [hsp] at h
    have ha : '-' ∉ a := hsign a (by rw [hsp]; simp)
    have hb : '-' ∉ b := hsign b (by rw [hsp]; simp)
    have hc : '-' ∉ c := hsign c (by rw [hsp]; simp)
    cases hia : pyInt? a with
    | none =>
      simp only [hia] at h
      cases hib : pyInt? b <;> cases hic : pyFloat? c <;>
        simp only [hib, hic, Option.some.injEq] at h <;> exact le_of_eq h
    | some hh =>
      cases hib : pyInt? b with
      | none =>
        simp only [hia, hib] at h
        cases hic : pyFloat? c <;> simp only [hic, Option.some.injEq] at h <;>
          exact le_of_eq h
      | some mm =>
        cases hic : pyFloat? c with
        | none =>
          simp only [hia, hib, hic, Option.some.injEq] at h
          exact le_of_eq h
        | some sec =>
          simp only [hia, hib, hic, Option.some.injEq] at h
          have h1 : (0 : ℚ) ≤ (hh : ℚ) := by exact_mod_cast pyInt?_nonneg ha hia
          have h2 : (0 : ℚ) ≤ (mm : ℚ) := by exact_mod_cast pyInt?_nonneg hb hib
          have h3 : (0 : ℚ) ≤ sec := pyFloat?_nonneg hc hic
          nlinarith [h1, h2, h3]
  · rw [hsp] at h
    simp at h

/-- C9 witness: the amended theorem applied at the sign-free input `"2:30"`. -/
theorem claim9_witness :
    ∃ v : ℚ, timestamp_to_seconds "2:30".data = some v ∧ 0 ≤ v := by
  have hts : timestamp_to_seconds "2:30".data = some 150 :=
    claim7_parse_formulas.2.2.1
  exact ⟨150, hts, claim9_nonneg_signfree "2:30".data 150 (by decide) hts⟩

/-- C3 counterexample: the claim ranges over all valid `MM:SS` strings with
possibly fractional seconds, but `seconds_to_timestamp` truncates with
`int(...)`: for `s = "0:30.5"`, `parse(s) = 30.5` while
`format(parse(s)) = "0:30"` denotes 30 seconds, not the same number. -/
theorem claim3_counterexample :
    timestamp_to_seconds "0:30.5".data = some (61 / 2) ∧
    seconds_to_timestamp (61 / 2) = "0:30".data ∧
    timestamp_to_seconds "0:30".data = some 30 ∧ ((30 : ℚ) ≠ 61 / 2) := by
  refine ⟨?_, ?_, ?_, by norm_num⟩
  · have h1 : splitOnChar ':' (pyStrip "0:30.5".data) = ["0".data, "30.5".data] := by
      decide
    have h2 : pyInt? "0".data = some 0 := by decide
    have h3 : pyFloat? "30.5".data = some (61 / 2) := by
      have h : pyDecMag? "30.5".data = some (30, 5, 1) := by decide
      simp [pyFloat?, h, decValue]
      norm_num
    rw [ts_two_part h1 h2 h3]
    norm_num
  · have hf : (⌊(61 / 2 : ℚ) / 60⌋ : ℤ) = 0 := by
      rw [Int.floor_eq_iff]
      norm_num
    have hf2 : (⌊(61 / 2 : ℚ) - 60 * ((⌊(61 / 2 : ℚ) / 60⌋ : ℤ) : ℚ)⌋ : ℤ) = 30 := by
      rw [hf]
      rw [Int.floor_eq_iff]
      norm_num
    rw [seconds_to_timestamp, hf2, hf]
    decide
  · have h1 : splitOnChar ':' (pyStrip "0:30".data) = ["0".data, "30".data] := by decide
    have h2 : pyInt? "0".data = some 0 := by decide
    have h3 : pyFloat? "30".data = some 30 := by
      have h : pyDecMag? "30".data = some (30, 0, 0) := by decide
      simp [pyFloat?, h, decValue]
    rw [ts_two_part h1 h2 h3]
    norm_num

/-- C3 (amended): for every valid `MM:SS` string with a non-negative
integer minutes token and a non-negative integer seconds token,
`format(parse(s))` parses back to exactly the seconds denoted by `s`.
(The fractional-seconds case of the original claim is refuted by
`claim3_counterexample`; the spec's own round-trip invariant is "within
1-second resolution".) -/
theorem claim3_format_parse_roundtrip (s a b : PyStr) (m : ℤ) (sec : ℚ)
    (hsplit : splitOnChar ':' (pyStrip s) = [a, b]) (hm : pyInt? a = some m)
    (hm0 : 0 ≤ m) (hsec : pyFloat? b = some sec) (hsec0 : 0 ≤ sec)
    (hden : sec.den = 1) :
    timestamp_to_seconds s = some ((m : ℚ) * 60 + sec) ∧
    timestamp_to_seconds (seconds_to_timestamp ((m : ℚ) * 60 + sec)) =
      some ((m : ℚ) * 60 + sec) := by
  refine ⟨ts_two_part hsplit hm hsec, ts_roundtrip ?_ ?_⟩
  · have h1 : (0 : ℚ) ≤ (m : ℚ) := by exact_mod_cast hm0
    nlinarith [h1, hsec0]
  · have hsec2 : ((sec.num : ℤ) : ℚ) = sec := (Rat.den_eq_one_iff sec).1 hden
    have hval : (m : ℚ) * 60 + sec = ((m * 60 + sec.num : ℤ) : ℚ) := by
      push_cast
      rw [hsec2]
    rw [hval, Rat.den_intCast]

/-- C3 witness: the round-trip at the concrete input `"2:30"`. -/
theorem claim3_witness :
    timestamp_to_seconds "2:30".data = some ((2 : ℚ) * 60 + 30) ∧
    timestamp_to_seconds (seconds_to_timestamp ((2 : ℚ) * 60 + 30)) =
      some ((2 : ℚ) * 60 + 30) :=
  claim3_format_parse_roundtrip "2:30".data "2".data "30".data 2 30 (by decide)
    (by decide) (by norm_num)
    (by
      have h : pyDecMag? "30".data = some (30, 0, 0) := by decide
      simp [pyFloat?, h, decValue])
    (by norm_num) (by norm_num)

/-- C4: the claim says the Apply Changes commit always returns the moments
in non-decreasing TimeCode order for any add/edit/delete interleaving.  The
sort itself is correct, but the slip in `timestamp_to_seconds` (claim C2)
leaks into it: adding a moment with timestamp `"abc"` gives a `None` sort
key and `sorted(...)` raises `TypeError`, so commit returns nothing at all
(first conjunct evaluates the model at that failing input).  Whenever every
timestamp parses - in particular under the intended behaviour of
`timestamp_to_seconds` - commit returns a permutation of the moments sorted
non-decreasingly by numeric TimeCode (second conjunct). -/
theorem claim4_commit_sorted :
    applyChanges [⟨"abc".data, "action".data, "d1".data, none⟩,
      ⟨"0:05".data, "action".data, "d2".data, none⟩] = none ∧
    ∀ ms : List Moment, ms ≠ [] → (∀ m ∈ ms, (momentKey m).isSome = true) →
      ∃ l, applyChanges ms = some l ∧ l.Perm ms ∧
        l.Sorted (fun a b => momentKeyD a ≤ momentKeyD b) := by
  constructor
  · decide
  · intro ms hne hall
    exact ⟨ms.insertionSort (fun a b => momentKeyD a ≤ momentKeyD b),
      applyChanges_some hne hall, List.perm_insertionSort _ _,
      List.sorted_insertionSort _ _⟩

/-- C4 witness: commit applied to a concrete two-moment list whose
timestamps both parse. -/
theorem claim4_witness :
    ∃ l, applyChanges [⟨"0:05".data, "action".data, "d1".data, none⟩,
        ⟨"0:02".data, "action".data, "d2".data, none⟩] = some l ∧
      l.Perm [⟨"0:05".data, "action".data, "d1".data, none⟩,
        ⟨"0:02".data, "action".data, "d2".data, none⟩] ∧
      l.Sorted (fun a b => momentKeyD a ≤ momentKeyD b) :=
  claim4_commit_sorted.2
    [⟨"0:05".data, "action".data, "d1".data, none⟩,
     ⟨"0:02".data, "action".data, "d2".data, none⟩]
    (by decide) (by decide)

/-- C5: `extract_all_frames` returns at most one frame per input moment, the
surviving frames preserve the relative order of the input moments (their
moment list is a sublist of the input), and a moment whose extraction fails
is dropped outright - it never appears in the output, with no retry and no
blank-frame substitute. -/
theorem claim5_framebatch {α : Type} (extract : Option ℚ → Option α)
    (moments : List Moment) :
    (extract_all_frames extract moments).length ≤ moments.length ∧
    ((extract_all_frames extract moments).map Frame.moment).Sublist moments ∧
    ∀ m ∈ moments, extract (timestamp_to_seconds m.timestamp) = none →
      m ∉ (extract_all_frames extract moments).map Frame.moment := by
  have hsub := eaf_moments_sublist extract moments
  refine ⟨?_, hsub, ?_⟩
  · have := hsub.length_le
    simpa using this
  · intro m hm hx hmem
    obtain ⟨f, hf, hfm⟩ := List.mem_map.1 hmem
    obtain ⟨-, hne⟩ := eaf_mem hf
    rw [hfm, hx] at hne
    exact hne rfl

/-- C5 witness: the theorem applied with an always-failing extractor on a
one-moment list - the moment is dropped from the (empty) output. -/
theorem claim5_witness :
    ⟨"0:05".data, "action".data, "d".data, none⟩ ∉
      (extract_all_frames (fun _ => (none : Option ℕ))
        [⟨"0:05".data, "action".data, "d".data, none⟩]).map Frame.moment :=
  (claim5_framebatch (fun _ => (none : Option ℕ))
      [⟨"0:05".data, "action".data, "d".data, none⟩]).2.2
    ⟨"0:05".data, "action".data, "d".data, none⟩ (by decide) rfl

/-- C1 counterexample: the claim says each excess `[SCREENSHOT]` reference
resolves to an explicit missing-image placeholder node.  `add_screenshot`
has no `else` branch, so with one screenshot marker and zero frames the
assembled document contains no node at all for the reference - no
placeholder is ever produced. -/
theorem claim1_counterexample :
    create_word_document "[SCREENSHOT]".data ([] : List (Frame ℕ)) = [] := by
  decide

/-- C1 (amended): document assembly never raises when `[SCREENSHOT]` lines
outnumber the frames; each excess reference is silently skipped - it emits
no node (the original claim's "missing-image placeholder" does not exist,
see `claim1_counterexample`) - and the rest of the document is unaffected:
the heading/paragraph nodes are identical for any two frame lists, and the
number of embedded pictures is `min(#markers, #frames)`, so exactly the
excess references contribute nothing.  (The embedding is a total function,
so "never raises" holds by construction: every input is mapped to a node
list.) -/
theorem claim1_excess_refs_skipped {α : Type} (content : PyStr)
    (frames frames' : List (Frame α)) :
    (create_word_document content frames).filter isTextNode =
      (create_word_document content frames').filter isTextNode ∧
    (picturesOf (create_word_document content frames)).length =
      min (countScreenshotLines content) frames.length := by
  constructor
  · exact text_createNodes frames frames' _ 0
  · rw [create_word_document, pics_createNodes, countScreenshotLines, List.drop_zero]
    simp [List.length_take]

/-- C6: the screenshot counter starts at 0 and the n-th `[SCREENSHOT]` line
(0-based) in document order is bound to `frames[n]` purely by position: the
pictures embedded in the assembled document are exactly the images of the
first `min(#markers, #frames)` frames, in frame order, regardless of any
timestamp or description content (neither appears in the binding, which
depends only on the marker count and the frame list). -/
theorem claim6_positional_binding {α : Type} (content : PyStr)
    (frames : List (Frame α)) :
    picturesOf (create_word_document content frames) =
      (frames.take (countScreenshotLines content)).map Frame.image := by
  rw [create_word_document, pics_createNodes, countScreenshotLines, List.drop_zero]

/-- C8: in `create_word_document`, a blank line is skipped (no node is
emitted), and a non-blank line that starts with none of the six delimiter
tokens is emitted as a single opaque plain-text paragraph node, never an
error and never an empty node. -/
theorem claim8_text_fallback {α : Type} (frames : List (Frame α)) (c : ℕ)
    (l : PyStr) :
    (pyStrip l = [] → lineNodes frames c l = ([], c)) ∧
    (pyStrip l ≠ [] →
      (∀ t ∈ ["[TITLE]".data, "[SECTION]".data, "[SUBSECTION]".data, "[STEP]".data,
        "[BULLET]".data, "[SCREENSHOT]".data],
        startsWithTag t (pyStrip l) = false) →
      lineNodes frames c l = ([.para none (pyStrip l)], c)) := by
  constructor
  · exact fun h => lineNodes_blank frames c l h
  · intro hne htags
    have h1 : startsWithTag "[TITLE]".data (pyStrip l) = false := htags _ (by simp)
    have h2 : startsWithTag "[SECTION]".data (pyStrip l) = false := htags _ (by simp)
    have h3 : startsWithTag "[SUBSECTION]".data (pyStrip l) = false := htags _ (by simp)
    have h4 : startsWithTag "[STEP]".data (pyStrip l) = false := htags _ (by simp)
    have h5 : startsWithTag "[BULLET]".data (pyStrip l) = false := htags _ (by simp)
    have h6 : startsWithTag "[SCREENSHOT]".data (pyStrip l) = false := htags _ (by simp)
    simp only [lineNodes]
    rw [if_neg hne, if_neg (by simp [h1]), if_neg (by simp [h2]),
      if_neg (by simp [h3]), if_neg (by simp [h4]), if_neg (by simp [h5]),
      if_neg (by simp [h6]), add_paragraph_with_screenshots, pyStrip_idem,
      if_neg hne]

/-- C8 witness: a blank line and an undelimited line, both concrete. -/
theorem claim8_witness :
    lineNodes ([] : List (Frame ℕ)) 0 "  ".data = ([], 0) ∧
    lineNodes ([] : List (Frame ℕ)) 0 " hello world ".data =
      ([.para none "hello world".data], 0) :=
  ⟨(claim8_text_fallback ([] : List (Frame ℕ)) 0 "  ".data).1 (by decide),
   (claim8_text_fallback ([] : List (Frame ℕ)) 0 " hello world ".data).2
     (by decide) (by decide)⟩

/-- C10: a line whose stripped form starts with `[SCREENSHOT]` - trailing
text included - is treated as a screenshot marker: the counter increments
and `add_screenshot` embeds the corresponding frame, and the result is
identical to that of a bare `[SCREENSHOT]` line, so the trailing text is
discarded rather than emitted as a text node. -/
theorem claim10_screenshot_trailing_text {α : Type} (frames : List (Frame α))
    (c : ℕ) (l : PyStr)
    (h : startsWithTag "[SCREENSHOT]".data (pyStrip l) = true) :
    lineNodes frames c l = (add_screenshot (c + 1) frames, c + 1) ∧
    lineNodes frames c l = lineNodes frames c "[SCREENSHOT]".data := by
  refine ⟨lineNodes_SS frames c l h, ?_⟩
  rw [lineNodes_SS frames c l h,
    lineNodes_SS frames c "[SCREENSHOT]".data (by decide)]

/-- C10 witness: a concrete marker line with trailing text, bound to the
single available frame. -/
theorem claim10_witness :
    lineNodes [(⟨⟨"0:02".data, "action".data, "d".data, none⟩, (7 : ℕ),
        "0:02".data⟩ : Frame ℕ)] 0 "[SCREENSHOT] Login page".data =
      (add_screenshot 1 [⟨⟨"0:02".data, "action".data, "d".data, none⟩, 7,
        "0:02".data⟩], 1) ∧
    lineNodes [(⟨⟨"0:02".data, "action".data, "d".data, none⟩, (7 : ℕ),
        "0:02".data⟩ : Frame ℕ)] 0 "[SCREENSHOT] Login page".data =
      lineNodes [⟨⟨"0:02".data, "action".data, "d".data, none⟩, 7,
        "0:02".data⟩] 0 "[SCREENSHOT]".data :=
  claim10_screenshot_trailing_text
    [⟨⟨"0:02".data, "action".data, "d".data, none⟩, 7, "0:02".data⟩] 0
    "[SCREENSHOT] Login page".data (by decide)

end ProcDoc
